import Mathlib

/-!
Shallow embedding of the WordSuggest repository's core suggestion logic
(`src/manual_test_simulation.py`): the `WordSuggestion` record, the
`MockWordSuggestionService` lexicon and its `get_suggestions` lookup, the
`MockSuggestionWindow` presentation state, and the `MockAppDelegate`
selection handler.  Python strings are modelled as `String` / `List Char`,
Python floats (only the constants 0.8, 0.6, 0.4 occur) as `ℚ`.
-/

/-- Record `WordSuggestion(word, suggestion_type, confidence)` from the
source (its `word`, `type`, `confidence` attributes). -/
structure WordSuggestion where
  word : String
  type : String
  confidence : ℚ
  deriving DecidableEq

/-- Field `self.built_in_synonyms` of `MockWordSuggestionService.__init__`, as an
association list in the dict's insertion order (Python dicts iterate in
insertion order). -/
def built_in_synonyms : List (String × List String) :=
  [("good", ["excellent", "great", "wonderful", "fantastic", "superb"]),
   ("bad", ["terrible", "awful", "horrible", "poor", "dreadful"]),
   ("big", ["large", "huge", "enormous", "massive", "gigantic"]),
   ("small", ["tiny", "little", "minute", "petite", "compact"]),
   ("fast", ["quick", "rapid", "swift", "speedy", "hasty"]),
   ("slow", ["gradual", "leisurely", "sluggish", "unhurried", "deliberate"]),
   ("happy", ["joyful", "cheerful", "delighted", "elated", "content"]),
   ("sad", ["sorrowful", "melancholy", "dejected", "gloomy", "mournful"]),
   ("beautiful", ["gorgeous", "stunning", "attractive", "lovely", "magnificent"]),
   ("ugly", ["hideous", "unsightly", "repulsive", "grotesque", "unattractive"]),
   ("smart", ["intelligent", "brilliant", "clever", "wise", "sharp"]),
   ("stupid", ["foolish", "ignorant", "dumb", "senseless", "mindless"]),
   ("important", ["significant", "crucial", "vital", "essential", "critical"]),
   ("easy", ["simple", "effortless", "straightforward", "uncomplicated", "basic"]),
   ("difficult", ["challenging", "tough", "demanding", "complex", "arduous"]),
   ("new", ["fresh", "recent", "modern", "novel", "contemporary"]),
   ("old", ["ancient", "vintage", "aged", "elderly", "antique"]),
   ("hot", ["warm", "scorching", "blazing", "sweltering", "boiling"]),
   ("cold", ["frigid", "freezing", "chilly", "icy", "arctic"]),
   ("bright", ["luminous", "radiant", "brilliant", "vivid", "gleaming"])]

/-- The local list `general_alternatives` of `get_suggestions`. -/
def general_alternatives : List String :=
  ["alternative", "option", "choice", "variant", "substitute"]

/-- Python `str.strip()` (no argument): drop whitespace from both ends. -/
def strip (s : List Char) : List Char :=
  ((s.dropWhile Char.isWhitespace).reverse.dropWhile Char.isWhitespace).reverse

/-- Python `str.lower()`, per character (all characters appearing in the
lexicon and the tests are ASCII). -/
def lowerL (s : List Char) : List Char :=
  s.map Char.toLower

/-- Computation `clean_text = text.strip().lower()` at the top of
`get_suggestions`. -/
def cleanOf (text : String) : List Char :=
  lowerL (strip text.toList)

/-- Does the haystack start with the needle? (helper for Python's `in`). -/
def leadsWith : List Char → List Char → Bool
  | [], _ => true
  | _ :: _, [] => false
  | a :: as, b :: bs => a == b && leadsWith as bs

/-- Python's substring test `needle in hay` on strings-as-char-lists. -/
def containsSeq (needle : List Char) : List Char → Bool
  | [] => leadsWith needle []
  | c :: t => leadsWith needle (c :: t) || containsSeq needle t

/-- The exact-match block of `get_suggestions`:
`if clean_text in self.built_in_synonyms: suggestions = [WordSuggestion(word, "synonym", 0.8) for word in synonyms[:5]]`.
Python dict membership is key equality; when the key is absent the block
leaves `suggestions = []`. -/
def exactFor (clean_text : List Char) : List WordSuggestion :=
  match built_in_synonyms.find? (fun p => p.1.toList == clean_text) with
  | some p => (p.2.take 5).map (fun w => ⟨w, "synonym", 0.8⟩)
  | none => []

/-- The partial-match block of `get_suggestions` (runs only when
`suggestions` is still empty): scan keys in insertion order, first key with
`key in clean_text or clean_text in key` wins, take `synonyms[:3]` tagged
`"related"` at 0.6. -/
def fuzzyFor (clean_text : List Char) : List WordSuggestion :=
  match built_in_synonyms.find?
      (fun p => containsSeq p.1.toList clean_text || containsSeq clean_text p.1.toList) with
  | some p => (p.2.take 3).map (fun w => ⟨w, "related", 0.6⟩)
  | none => []

/-- The padding block of `get_suggestions`:
`if len(suggestions) < 3: for alt in general_alternatives[:5 - len(suggestions)]: suggestions.append(WordSuggestion(alt, "alternative", 0.4))`. -/
def padFill (s : List WordSuggestion) : List WordSuggestion :=
  if s.length < 3 then
    s ++ (general_alternatives.take (5 - s.length)).map (fun w => ⟨w, "alternative", 0.4⟩)
  else s

/-- Method `MockWordSuggestionService.get_suggestions` assembled from its three
blocks, in source order. -/
def get_suggestions (text : String) : List WordSuggestion :=
  let clean_text := cleanOf text
  let s1 := exactFor clean_text
  let s2 := if s1 = [] then fuzzyFor clean_text else s1
  padFill s2

/-- State of `MockSuggestionWindow` (`is_visible`,
`current_suggestions`, `position`). -/
structure MockSuggestionWindow where
  is_visible : Bool
  current_suggestions : List WordSuggestion
  position : Int × Int
  deriving DecidableEq

/-- Constructor `MockSuggestionWindow.__init__`. -/
def MockSuggestionWindow.init : MockSuggestionWindow :=
  ⟨false, [], (0, 0)⟩

/-- Method `MockSuggestionWindow.show_suggestions`: stores the suggestions and
position and sets `is_visible = len(suggestions) > 0`. -/
def show_suggestions (_w : MockSuggestionWindow) (suggestions : List WordSuggestion)
    (position : Int × Int) : MockSuggestionWindow :=
  { current_suggestions := suggestions
    position := position
    is_visible := decide (0 < suggestions.length) }

/-- Method `MockSuggestionWindow.hide`. -/
def MockSuggestionWindow.hide (w : MockSuggestionWindow) : MockSuggestionWindow :=
  { w with is_visible := false, current_suggestions := [] }

/-- Method `MockAppDelegate.text_selection_detected`, instrumented: returns the
window state after the call together with the argument passed to
`get_suggestions` (`none` when no suggestion call was made).  Source:
`clean_text = text.strip()`; empty `clean_text` just prints "Empty text
selection ignored" and returns; otherwise `suggestions =
self.suggestion_service.get_suggestions(clean_text)` and the window is
shown only when `suggestions` is non-empty. -/
def text_selection_detected (w : MockSuggestionWindow) (text : String)
    (position : Int × Int) : MockSuggestionWindow × Option String :=
  let clean_text : String := ⟨strip text.toList⟩
  if clean_text = "" then (w, none)
  else
    let suggestions := get_suggestions clean_text
    if suggestions = [] then (w, some clean_text)
    else (show_suggestions w suggestions position, some clean_text)

/-- Case-insensitive normalization of a suggestion word (the dedup key). -/
def normWord (s : String) : List Char :=
  lowerL s.toList

/-- Every lexicon entry stores exactly 5 candidate words. -/
lemma built_in_len : ∀ p ∈ built_in_synonyms, p.2.length = 5 := by decide

/-- Within each lexicon entry the candidates are pairwise distinct even
after case normalization. -/
lemma built_in_nodup : ∀ p ∈ built_in_synonyms, (p.2.map normWord).Nodup := by
  decide

/-- Any relation that holds everywhere holds pairwise on any list. -/
lemma pairwise_of_total {α : Type} {R : α → α → Prop} (h : ∀ a b, R a b) :
    ∀ l : List α, l.Pairwise R
  | [] => List.Pairwise.nil
  | a :: t => List.Pairwise.cons (fun b _ => h a b) (pairwise_of_total h t)

/-- Unfolding of `get_suggestions` with its `let` bindings reduced. -/
lemma get_suggestions_eq (t : String) :
    get_suggestions t =
      padFill (if exactFor (cleanOf t) = [] then fuzzyFor (cleanOf t)
        else exactFor (cleanOf t)) := rfl

/-- A `get_suggestions` result takes one of exactly three shapes: the
exact-match block over some lexicon entry, the partial-match block over
some lexicon entry, or the full filler list. -/
lemma get_suggestions_cases (t : String) :
    (∃ p ∈ built_in_synonyms,
        get_suggestions t =
          (p.2.take 5).map (fun w => ⟨w, "synonym", 0.8⟩)) ∨
    (∃ p ∈ built_in_synonyms,
        get_suggestions t =
          (p.2.take 3).map (fun w => ⟨w, "related", 0.6⟩)) ∨
    get_suggestions t =
      general_alternatives.map (fun w => ⟨w, "alternative", 0.4⟩) := by
  rcases h1 : built_in_synonyms.find? (fun p => p.1.toList == cleanOf t)
    with _ | p
  · have hx : exactFor (cleanOf t) = [] := by unfold exactFor; rw [h1]
    rcases h2 : built_in_synonyms.find?
        (fun p => containsSeq p.1.toList (cleanOf t) ||
          containsSeq (cleanOf t) p.1.toList) with _ | p
    · have hf : fuzzyFor (cleanOf t) = [] := by unfold fuzzyFor; rw [h2]
      right; right
      rw [get_suggestions_eq, if_pos hx, hf]
      rfl
    · have hmem := List.mem_of_find?_eq_some h2
      have hlen := built_in_len p hmem
      have hf : fuzzyFor (cleanOf t) =
          (p.2.take 3).map (fun w => ⟨w, "related", 0.6⟩) := by
        unfold fuzzyFor; rw [h2]
      right; left
      refine ⟨p, hmem, ?_⟩
      rw [get_suggestions_eq, if_pos hx, hf]
      unfold padFill
      rw [if_neg]
      simp [List.length_take, hlen]
  · have hmem := List.mem_of_find?_eq_some h1
    have hlen := built_in_len p hmem
    have hx : exactFor (cleanOf t) =
        (p.2.take 5).map (fun w => ⟨w, "synonym", 0.8⟩) := by
      unfold exactFor; rw [h1]
    have hxlen : (exactFor (cleanOf t)).length = 5 := by
      rw [hx]; simp [List.length_take, hlen]
    have hne : exactFor (cleanOf t) ≠ [] := by
      intro hc; rw [hc] at hxlen; simp at hxlen
    left
    refine ⟨p, hmem, ?_⟩
    rw [get_suggestions_eq, if_neg hne, hx]
    unfold padFill
    rw [if_neg]
    rw [← hx, hxlen]
    omega

/-- A constant-confidence suggestion list is non-increasing in confidence. -/
lemma pairwise_constConf (l : List String) (k : String) (c : ℚ) :
    (l.map (fun w => (⟨w, k, c⟩ : WordSuggestion))).Pairwise
      (fun a b => b.confidence ≤ a.confidence) := by
  rw [List.pairwise_map]
  exact pairwise_of_total (fun _ _ => le_refl c) l

/-- Mapping entry words into suggestions preserves the normalized-word
lists, so distinctness transfers. -/
lemma nodup_mapped (l : List String) (k : String) (c : ℚ)
    (h : (l.map normWord).Nodup) :
    ((l.map (fun w => (⟨w, k, c⟩ : WordSuggestion))).map
      (fun s => normWord s.word)).Nodup := by
  rw [List.map_map]
  exact h

/-- C1: for every non-empty input text, `get_suggestions` returns no two
suggestions with the same case-normalized word, confidences in
non-increasing order, and at most 5 entries. -/
theorem lookup_dedup_sorted_capped (t : String) (_h : t ≠ "") :
    ((get_suggestions t).map (fun s => normWord s.word)).Nodup ∧
    (get_suggestions t).Pairwise (fun a b => b.confidence ≤ a.confidence) ∧
    (get_suggestions t).length ≤ 5 := by
  rcases get_suggestions_cases t with ⟨p, hmem, he⟩ | ⟨p, hmem, he⟩ | he <;>
    rw [he] <;>
    refine ⟨?_, pairwise_constConf _ _ _, ?_⟩
  · exact nodup_mapped _ _ _
      ((built_in_nodup p hmem).sublist ((List.take_sublist 5 p.2).map normWord))
  · simp [List.length_take]
  · exact nodup_mapped _ _ _
      ((built_in_nodup p hmem).sublist ((List.take_sublist 3 p.2).map normWord))
  · simp [List.length_take]
  · exact nodup_mapped _ _ _ (by decide)
  · simp [general_alternatives]

/-- Witness for C1 at the concrete input `"good"`. -/
theorem lookup_dedup_sorted_capped_witness :
    ("good" : String) ≠ "" ∧
    (((get_suggestions "good").map (fun s => normWord s.word)).Nodup ∧
      (get_suggestions "good").Pairwise
        (fun a b => b.confidence ≤ a.confidence) ∧
      (get_suggestions "good").length ≤ 5) :=
  ⟨by decide, lookup_dedup_sorted_capped "good" (by decide)⟩

/-- C10: for every input string whatsoever, `get_suggestions` returns at
least 3 suggestions, and its length is exactly 3 or exactly 5 — the lookup
can never return an empty result. -/
theorem lookup_length_three_or_five (t : String) :
    3 ≤ (get_suggestions t).length ∧
    ((get_suggestions t).length = 3 ∨ (get_suggestions t).length = 5) := by
  rcases get_suggestions_cases t with ⟨p, hmem, he⟩ | ⟨p, hmem, he⟩ | he <;>
    rw [he]
  · have := built_in_len p hmem
    simp [List.length_take, this]
  · have := built_in_len p hmem
    simp [List.length_take, this]
  · simp [general_alternatives]

/-- C4: when the normalized input matches a lexicon key (the first — and
only, keys being distinct — entry found by key equality), `get_suggestions`
returns that entry's candidates, capped at 5, tagged `"synonym"` at
confidence 0.8, in stored order. -/
theorem exact_match_synonyms (t : String) (p : String × List String)
    (h : built_in_synonyms.find? (fun q => q.1.toList == cleanOf t) = some p) :
    get_suggestions t = (p.2.take 5).map (fun w => ⟨w, "synonym", 0.8⟩) := by
  have hmem := List.mem_of_find?_eq_some h
  have hlen := built_in_len p hmem
  have hx : exactFor (cleanOf t) =
      (p.2.take 5).map (fun w => ⟨w, "synonym", 0.8⟩) := by
    unfold exactFor; rw [h]
  have hxlen : (exactFor (cleanOf t)).length = 5 := by
    rw [hx]; simp [List.length_take, hlen]
  have hne : exactFor (cleanOf t) ≠ [] := by
    intro hc; rw [hc] at hxlen; simp at hxlen
  rw [get_suggestions_eq, if_neg hne, hx]
  unfold padFill
  rw [if_neg]
  simp [List.length_take, hlen]

/-- Witness for C4 at `"good"`: the exact-match entry is found and the
result is the five stored synonyms at 0.8. -/
theorem exact_match_synonyms_witness :
    built_in_synonyms.find? (fun q => q.1.toList == cleanOf "good") =
      some ("good", ["excellent", "great", "wonderful", "fantastic", "superb"]) ∧
    get_suggestions "good" =
      [⟨"excellent", "synonym", 0.8⟩, ⟨"great", "synonym", 0.8⟩,
       ⟨"wonderful", "synonym", 0.8⟩, ⟨"fantastic", "synonym", 0.8⟩,
       ⟨"superb", "synonym", 0.8⟩] :=
  ⟨rfl, by
    rw [exact_match_synonyms "good"
      ("good", ["excellent", "great", "wonderful", "fantastic", "superb"]) rfl]
    exact rfl⟩

/-- C5: when the exact-match block produced nothing, the partial-match scan
takes the first key (in insertion order) that is a substring of the input
or contains it, and returns that entry's candidates capped at 3, tagged
`"related"` at confidence 0.6. -/
theorem partial_match_first_hit (t : String) (p : String × List String)
    (h1 : exactFor (cleanOf t) = [])
    (h2 : built_in_synonyms.find?
        (fun q => containsSeq q.1.toList (cleanOf t) ||
          containsSeq (cleanOf t) q.1.toList) = some p) :
    get_suggestions t = (p.2.take 3).map (fun w => ⟨w, "related", 0.6⟩) := by
  have hmem := List.mem_of_find?_eq_some h2
  have hlen := built_in_len p hmem
  have hf : fuzzyFor (cleanOf t) =
      (p.2.take 3).map (fun w => ⟨w, "related", 0.6⟩) := by
    unfold fuzzyFor; rw [h2]
  rw [get_suggestions_eq, if_pos h1, hf]
  unfold padFill
  rw [if_neg]
  simp [List.length_take, hlen]

/-- Witness for C5 at `"beauti"`: no exact match, the first partial hit is
the `beautiful` entry, and the result is its first 3 candidates at 0.6. -/
theorem partial_match_first_hit_witness :
    exactFor (cleanOf "beauti") = [] ∧
    built_in_synonyms.find?
        (fun q => containsSeq q.1.toList (cleanOf "beauti") ||
          containsSeq (cleanOf "beauti") q.1.toList) =
      some ("beautiful",
        ["gorgeous", "stunning", "attractive", "lovely", "magnificent"]) ∧
    get_suggestions "beauti" =
      [⟨"gorgeous", "related", 0.6⟩, ⟨"stunning", "related", 0.6⟩,
       ⟨"attractive", "related", 0.6⟩] :=
  ⟨rfl, rfl, by
    rw [partial_match_first_hit "beauti"
      ("beautiful", ["gorgeous", "stunning", "attractive", "lovely", "magnificent"])
      rfl rfl]
    exact rfl⟩

/-- C2 counterexample: `get_suggestions "unknownword"` does not have 3
entries (the padding loop `general_alternatives[:5 - len(suggestions)]`
fills up to 5, not 3). -/
theorem filler_not_three : ¬ (get_suggestions "unknownword").length = 3 := by
  intro h
  have : (get_suggestions "unknownword").length = 5 := rfl
  omega

/-- C2 amended: when neither the exact-match nor the partial-match block
produces anything, all five fillers are appended (`alternative, option,
choice, variant, substitute`, tagged `"alternative"` at 0.4) — the result
has 5 entries, not 3. -/
theorem filler_pads_to_five (t : String)
    (h1 : exactFor (cleanOf t) = []) (h2 : fuzzyFor (cleanOf t) = []) :
    get_suggestions t =
      general_alternatives.map (fun w => ⟨w, "alternative", 0.4⟩) := by
  rw [get_suggestions_eq, if_pos h1, h2]
  rfl

/-- Witness for the amended C2 at `"unknownword"`. -/
theorem filler_pads_to_five_witness :
    exactFor (cleanOf "unknownword") = [] ∧
    fuzzyFor (cleanOf "unknownword") = [] ∧
    get_suggestions "unknownword" =
      [⟨"alternative", "alternative", 0.4⟩, ⟨"option", "alternative", 0.4⟩,
       ⟨"choice", "alternative", 0.4⟩, ⟨"variant", "alternative", 0.4⟩,
       ⟨"substitute", "alternative", 0.4⟩] :=
  ⟨rfl, rfl, by
    rw [filler_pads_to_five "unknownword" rfl rfl]
    exact rfl⟩

/-- C3 counterexample: `get_suggestions "   "` is not the empty list — the
stripped input becomes `""`, and the empty string is a substring of every
key, so the partial-match block fires on the first key `"good"`. -/
theorem whitespace_lookup_not_empty : get_suggestions "   " ≠ [] := by
  intro h
  have : (get_suggestions "   ").length = 3 := rfl
  rw [h] at this
  simp at this

/-- C3 amended: whitespace-only input is discarded upstream — the delegate
`text_selection_detected` makes no suggestion call and leaves the window
untouched — while `get_suggestions` itself on `"   "` falls into the
partial-match branch and returns the first entry's 3 candidates tagged
`"related"` at 0.6. -/
theorem whitespace_discarded_upstream :
    (∀ (w : MockSuggestionWindow) (pos : Int × Int),
      text_selection_detected w "   " pos = (w, none)) ∧
    get_suggestions "   " =
      [⟨"excellent", "related", 0.6⟩, ⟨"great", "related", 0.6⟩,
       ⟨"wonderful", "related", 0.6⟩] :=
  ⟨fun _ _ => rfl, rfl⟩

/-- C6 counterexample: `get_suggestions "good!"` is not the exact-match
result of `get_suggestions "good"` — trailing punctuation is not stripped,
so `"good!"` misses the exact branch and its suggestions come out tagged
`"related"`, not `"synonym"`. -/
theorem trailing_punct_not_exact :
    get_suggestions "good!" ≠ get_suggestions "good" ∧
    (get_suggestions "good!").map WordSuggestion.type =
      ["related", "related", "related"] := by
  constructor
  · intro h
    have h1 : (get_suggestions "good!").length = 3 := rfl
    have h2 : (get_suggestions "good").length = 5 := rfl
    rw [h] at h1
    omega
  · rfl

/-- C6 amended: normalization is trim + lowercase only (no trailing
punctuation stripping), so for a key followed by punctuation the exact
block misses and the partial-match block fires on the first key that is a
substring: `"good!"` yields the `good` entry's first 3 candidates tagged
`"related"` at 0.6 instead of the exact-match result. -/
theorem trailing_punct_goes_fuzzy :
    exactFor (cleanOf "good!") = [] ∧
    get_suggestions "good!" =
      [⟨"excellent", "related", 0.6⟩, ⟨"great", "related", 0.6⟩,
       ⟨"wonderful", "related", 0.6⟩] :=
  ⟨rfl, rfl⟩

/-- C8 counterexample: with an overlay already visible, an empty (after
trim) selection leaves the window visible — `text_selection_detected`
returns without hiding anything, contradicting "hide any existing
overlay". -/
theorem empty_selection_leaves_overlay :
    ((text_selection_detected
        (show_suggestions MockSuggestionWindow.init
          (get_suggestions "good") (150, 300))
        "   " (250, 500)).1.is_visible = true) := rfl

/-- C8 amended: a selection whose text is empty after trimming makes no
suggestion call and returns with the presentation state unchanged — no
"no suggestions" signal is sent and an existing overlay is not hidden. -/
theorem empty_selection_ignored (w : MockSuggestionWindow) (text : String)
    (pos : Int × Int) (h : strip text.toList = []) :
    text_selection_detected w text pos = (w, none) := by
  have he : ({ data := strip text.data } : String) = "" := by
    show ({ data := strip text.toList } : String) = ""
    rw [h]
  simp [text_selection_detected, he]

/-- Witness for the amended C8 at `"   "` with a visible overlay. -/
theorem empty_selection_ignored_witness :
    strip ("   " : String).toList = [] ∧
    text_selection_detected
        (show_suggestions MockSuggestionWindow.init
          (get_suggestions "good") (150, 300)) "   " (250, 500) =
      (show_suggestions MockSuggestionWindow.init
        (get_suggestions "good") (150, 300), none) :=
  ⟨rfl, empty_selection_ignored _ "   " _ rfl⟩

/-- Packing a valid code point and reading it back is the identity. -/
lemma toNat_ofNat_valid {n : ℕ} (h : n.isValidChar) :
    (Char.ofNat n).toNat = n := by
  rw [Char.ofNat, dif_pos h]
  rfl

/-- Unfolding of `Char.toLower` to an `if` on the code point. -/
lemma toLower_eq (c : Char) :
    Char.toLower c =
      if c.toNat ≥ 65 ∧ c.toNat ≤ 90 then Char.ofNat (c.toNat + 32) else c := rfl

/-- Code points up to 122 are valid. -/
lemma valid_add32 {n : ℕ} (h1 : 65 ≤ n) (h2 : n ≤ 90) : (n + 32).isValidChar :=
  Or.inl (by omega)

/-- On an upper-case letter, `toLower` shifts the code point by 32. -/
lemma toLower_toNat_of_range {c : Char} (h : 65 ≤ c.toNat ∧ c.toNat ≤ 90) :
    (Char.toLower c).toNat = c.toNat + 32 := by
  rw [toLower_eq, if_pos h, toNat_ofNat_valid (valid_add32 h.1 h.2)]

/-- Off the upper-case range, `toLower` is the identity. -/
lemma toLower_of_not_range {c : Char} (h : ¬ (65 ≤ c.toNat ∧ c.toNat ≤ 90)) :
    Char.toLower c = c := by
  rw [toLower_eq, if_neg h]

/-- Lower-casing twice equals lower-casing once. -/
lemma toLower_idem (c : Char) :
    Char.toLower (Char.toLower c) = Char.toLower c := by
  by_cases h : 65 ≤ c.toNat ∧ c.toNat ≤ 90
  · apply toLower_of_not_range
    rw [toLower_toNat_of_range h]
    omega
  · rw [toLower_of_not_range h, toLower_of_not_range h]

/-- Characters with code point at least 65 are not whitespace. -/
lemma isWhitespace_false_of_ge (c : Char) (h : 65 ≤ c.toNat) :
    c.isWhitespace = false := by
  have h1 : ¬ c = ' ' := fun he => by subst he; exact absurd h (by decide)
  have h2 : ¬ c = '\t' := fun he => by subst he; exact absurd h (by decide)
  have h3 : ¬ c = '\r' := fun he => by subst he; exact absurd h (by decide)
  have h4 : ¬ c = '\n' := fun he => by subst he; exact absurd h (by decide)
  show (decide (c = ' ') || decide (c = '\t') || decide (c = '\r') ||
      decide (c = '\n')) = false
  simp [h1, h2, h3, h4]

/-- Lower-casing does not change whether a character is whitespace. -/
lemma toLower_isWhitespace (c : Char) :
    (Char.toLower c).isWhitespace = c.isWhitespace := by
  by_cases h : 65 ≤ c.toNat ∧ c.toNat ≤ 90
  · have h1 := toLower_toNat_of_range h
    have hA : (Char.toLower c).isWhitespace = false :=
      isWhitespace_false_of_ge _ (by omega)
    have hB : c.isWhitespace = false := isWhitespace_false_of_ge _ h.1
    rw [hA, hB]
  · rw [toLower_of_not_range h]

/-- Dropping while commutes with a `map` whose function preserves the test. -/
lemma dropWhile_map_comm (f : Char → Char) (p : Char → Bool)
    (h : ∀ c, p (f c) = p c) :
    ∀ l : List Char, (l.map f).dropWhile p = (l.dropWhile p).map f
  | [] => rfl
  | a :: t => by
    by_cases hp : p a = true <;>
      simp [List.dropWhile_cons, h a, hp, dropWhile_map_comm f p h t]

/-- Dropping twice while the same test holds equals dropping once. -/
lemma dropWhile_idem (p : Char → Bool) :
    ∀ l : List Char, (l.dropWhile p).dropWhile p = l.dropWhile p
  | [] => rfl
  | a :: t => by
    by_cases hp : p a = true <;>
      simp [List.dropWhile_cons, hp, dropWhile_idem p t]

/-- A `dropWhile` result is a tail segment of the input. -/
lemma dropWhile_eats (p : Char → Bool) :
    ∀ l : List Char, ∃ s, s ++ l.dropWhile p = l
  | [] => ⟨[], rfl⟩
  | a :: t => by
    by_cases hp : p a = true
    · obtain ⟨s, hs⟩ := dropWhile_eats p t
      exact ⟨a :: s, by simp [List.dropWhile_cons, hp, hs]⟩
    · exact ⟨[], by simp [List.dropWhile_cons, hp]⟩

/-- The head surviving a `dropWhile` fails the test. -/
lemma dropWhile_head_false (p : Char → Bool) :
    ∀ (l : List Char) (c : Char) (r : List Char),
      l.dropWhile p = c :: r → p c = false
  | [], c, r => by
    intro h
    simp at h
  | a :: t, c, r => by
    intro h
    by_cases hp : p a = true
    · rw [List.dropWhile_cons, if_pos hp] at h
      exact dropWhile_head_false p t c r h
    · rw [List.dropWhile_cons, if_neg hp] at h
      cases h
      simpa using hp

/-- Stripping commutes with a character map that preserves whitespace. -/
lemma strip_map_comm (f : Char → Char)
    (h : ∀ c, (f c).isWhitespace = c.isWhitespace) (l : List Char) :
    strip (l.map f) = (strip l).map f := by
  unfold strip
  rw [dropWhile_map_comm f _ h, ← List.map_reverse, dropWhile_map_comm f _ h,
    List.map_reverse]

/-- Stripping an already-stripped list changes nothing. -/
lemma strip_idem (l : List Char) : strip (strip l) = strip l := by
  unfold strip
  have h1 : ((l.dropWhile Char.isWhitespace).reverse.dropWhile
        Char.isWhitespace).reverse.dropWhile Char.isWhitespace =
      ((l.dropWhile Char.isWhitespace).reverse.dropWhile
        Char.isWhitespace).reverse := by
    cases hbr : ((l.dropWhile Char.isWhitespace).reverse.dropWhile
        Char.isWhitespace).reverse with
    | nil => rfl
    | cons c r =>
      obtain ⟨s, hs⟩ :=
        dropWhile_eats Char.isWhitespace (l.dropWhile Char.isWhitespace).reverse
      have ha2 : l.dropWhile Char.isWhitespace = c :: r ++ s.reverse := by
        have hrev := congrArg List.reverse hs
        simp at hrev
        rw [hbr] at hrev
        simpa using hrev.symm
      have hc : Char.isWhitespace c = false :=
        dropWhile_head_false Char.isWhitespace l c (r ++ s.reverse)
          (by simpa using ha2)
      rw [List.dropWhile_cons, if_neg (by simp [hc])]
  rw [h1]
  simp only [List.reverse_reverse]
  rw [dropWhile_idem]

/-- Normalization is a projection: normalizing the normalized string
changes nothing. -/
lemma cleanOf_clean (t : String) : cleanOf ⟨cleanOf t⟩ = cleanOf t := by
  show lowerL (strip (lowerL (strip t.toList))) = lowerL (strip t.toList)
  unfold lowerL
  rw [strip_map_comm Char.toLower toLower_isWhitespace, strip_idem,
    List.map_map]
  congr 1
  funext c
  exact toLower_idem c

/-- C7: lookup is case-insensitive — `get_suggestions` on any text equals
`get_suggestions` on its trimmed-and-lowercased form; in particular
`get_suggestions "HAPPY" = get_suggestions "happy"`. -/
theorem lookup_case_insensitive :
    (∀ t : String, get_suggestions t = get_suggestions ⟨cleanOf t⟩) ∧
    get_suggestions "HAPPY" = get_suggestions "happy" := by
  constructor
  · intro t
    rw [get_suggestions_eq, get_suggestions_eq, cleanOf_clean]
  · have h : cleanOf "HAPPY" = cleanOf "happy" := by decide
    rw [get_suggestions_eq, get_suggestions_eq, h]

/-- Modelled from the spec: the `SelectionDispatcher` state of §4.4/§5 is
implemented in platform Swift code (`AppDelegate.swift` / `TextMonitor.swift`)
that is not present under `src/`; `MockAppDelegate` in the simulation script
is fully synchronous and carries no `requestId`.  Per the spec, the
dispatcher holds the currently active monotonically increasing `requestId`
and the last result handed to presentation, tagged with its `requestId`. -/
structure SelectionDispatcher where
  currentId : ℕ
  presented : Option (ℕ × List WordSuggestion)
  deriving DecidableEq

/-- Modelled from the spec: the events driving the dispatcher — a capture
trigger (raw text and origin point), and the arrival of an engine result
tagged with the `requestId` it was computed for. -/
inductive DispatchEvent where
  | trigger (text : String) (origin : Int × Int)
  | arrive (requestId : ℕ) (result : List WordSuggestion)
  deriving DecidableEq

/-- Modelled from the spec: a capture trigger allocates a fresh
`requestId` (superseding any in-flight request); an arriving result reaches
presentation iff its `requestId` equals the dispatcher's current one —
"discard happens by id comparison, not arrival order". -/
def dispatchStep (s : SelectionDispatcher) :
    DispatchEvent → SelectionDispatcher
  | .trigger _ _ => { s with currentId := s.currentId + 1 }
  | .arrive rid res =>
      if rid = s.currentId then { s with presented := some (rid, res) }
      else s

/-- C9: after triggers at t1 < t2 (t2's computation still pending when
t1's completes late), the late arrival of t1's result is discarded — the
presentation state is unchanged — while t2's result is presented under
t2's `requestId`; the two ids differ, so it is never t1's result that is
presented. -/
theorem superseded_result_discarded (s : SelectionDispatcher)
    (t1 t2 : String) (o1 o2 : Int × Int) (r1 r2 : List WordSuggestion) :
    (dispatchStep (dispatchStep (dispatchStep s (.trigger t1 o1))
        (.trigger t2 o2))
      (.arrive (dispatchStep s (.trigger t1 o1)).currentId r1)).presented =
      (dispatchStep (dispatchStep s (.trigger t1 o1))
        (.trigger t2 o2)).presented ∧
    (dispatchStep (dispatchStep (dispatchStep s (.trigger t1 o1))
        (.trigger t2 o2))
      (.arrive (dispatchStep (dispatchStep s (.trigger t1 o1))
          (.trigger t2 o2)).currentId r2)).presented =
      some ((dispatchStep (dispatchStep s (.trigger t1 o1))
        (.trigger t2 o2)).currentId, r2) ∧
    (dispatchStep s (.trigger t1 o1)).currentId ≠
      (dispatchStep (dispatchStep s (.trigger t1 o1))
        (.trigger t2 o2)).currentId := by
  refine ⟨?_, ?_, ?_⟩
  · simp only [dispatchStep]
    rw [if_neg (by omega)]
  · simp only [dispatchStep]
    simp
  · simp only [dispatchStep]
    omega
